import Mathlib

/-!
Verification of the margherita line-oriented markdown editing core.

Shallow embedding of:
- `src/components/Editor/parser.ts`   (parseMarkdown / formatNode)
- `src/components/Editor/document.ts` (Document: setContent, updateNode, insertNode,
  removeNode, setActiveNode, updateSelection)
- `src/components/Editor/selection.ts` (SelectionManager: handleSelectAll,
  createLineSelection, createDocumentSelection, normalizeRange, clampPosition)
- `src/components/Editor/index.tsx`   (History: addTransaction, undo, redo)

Conventions of the embedding:
- JS strings are modelled as `List Char` (`JStr`); `String.prototype.length` is the
  number of UTF-16 code units, which coincides with the character count for the
  BMP text handled here.
- JS numbers used as timestamps and positions are modelled as `Int` (they are
  always integral in the source); nonnegative counts are `Nat`.
- `nanoid()` ids are opaque tokens compared only for equality; we model them as
  `Nat` drawn from a strictly increasing counter, which captures nanoid's
  uniqueness guarantee.
- Fallible operations (JS expressions that would throw `TypeError`) return
  `Option`.
-/

/-- JS strings as character sequences. -/
abbrev JStr := List Char

/-- Convenience: Lean string literal to `JStr`. -/
def str (s : String) : JStr := s.data

/-- Model of the JS regex class `\s` (and of the characters trimmed by
`String.prototype.trim`) restricted to the characters that can occur in this
code base: space, tab, newline, carriage return, vertical tab, form feed. -/
def jsWs (c : Char) : Bool :=
  c = ' ' || c = '\t' || c = '\n' || c = '\r' || c = '\x0b' || c = '\x0c'

/-- Model of the JS regex class `\w` = `[A-Za-z0-9_]`. -/
def jsWord (c : Char) : Bool :=
  c.isAlphanum || c = '_'

/-- Source `String.prototype.trim`: strip `\s` characters from both ends. -/
def jsTrim (cs : JStr) : JStr :=
  ((cs.dropWhile jsWs).reverse.dropWhile jsWs).reverse

/-- Source `content.split('\n')`: split on every newline; always returns at least one
(possibly empty) piece. -/
def splitNl : JStr → List JStr
  | [] => [[]]
  | c :: rest =>
    match splitNl rest with
    | [] => [[c]]
    | l :: ls => if c = '\n' then [] :: l :: ls else (c :: l) :: ls

/-- Numeric value of a digit string (models `parseInt` on the digits that the
list-marker regex group can contain; `parseInt("12.")` stops at the dot, so the
model receives the digits only). -/
def digitsToNat (ds : JStr) : Nat :=
  ds.foldl (fun acc c => acc * 10 + (c.toNat - 48)) 0

/-- Decimal rendering of a natural number, as JS template interpolation
`${n}` produces for an integral number. -/
def jsNumToString (n : Nat) : JStr :=
  if _h : n < 10 then [Nat.digitChar n]
  else jsNumToString (n / 10) ++ [Nat.digitChar (n % 10)]
decreasing_by exact Nat.div_lt_self (by omega) (by omega)

/-- Source `s.repeat(n)` for JS strings. -/
def repeatStr (s : JStr) (n : Nat) : JStr :=
  (List.replicate n s).flatten

/-- JS `x || 1` on an optional number (`undefined` and `0` are falsy). -/
def jsOr1 : Option Nat → Nat
  | some n => if n = 0 then 1 else n
  | none => 1

/-- JS `x || 0` on an optional number (`undefined` and `0` are both sent to
`0`, so this is exactly `Option.getD 0`). -/
def jsOr0 (o : Option Nat) : Nat := o.getD 0

/-! ## Data model (`types.ts`) -/

inductive NodeType where
  | paragraph | heading | list_item | code_block
deriving DecidableEq, Repr

inductive ListKind where
  | bullet | ordered
deriving DecidableEq, Repr

/-- Source `NodeAttributes` from `types.ts`: every field optional. -/
structure NodeAttributes where
  level : Option Nat := none
  listType : Option ListKind := none
  listIndent : Option Nat := none
  listNumber : Option Nat := none
  language : Option JStr := none
deriving DecidableEq, Repr

structure Node where
  id : Nat
  type : NodeType
  content : JStr
  rawContent : JStr
  attributes : NodeAttributes
deriving DecidableEq, Repr

structure Position where
  line : Int
  column : Int
deriving DecidableEq, Repr

structure Range where
  start : Position
  «end» : Position
deriving DecidableEq, Repr

inductive SelectionType where
  | none | text | line | document
deriving DecidableEq, Repr

structure Selection where
  range : Range
  isCollapsed : Bool
  type : SelectionType
deriving DecidableEq, Repr

structure DocumentState where
  nodes : List Node
  selection : Option Selection
  activeNodeId : Option Nat
deriving DecidableEq, Repr

/-! ## Line parser / formatter (`parser.ts`) -/

/-- Result shape of `parseMarkdown` (interface `ParseResult`). -/
structure ParseResult where
  type : NodeType
  content : JStr
  rawContent : JStr
  attributes : NodeAttributes
deriving DecidableEq, Repr

/-- The heading regex `/^(#{1,6})\s+(.+?)(?:\s*#)*\s*$/`, returning
(hash-run length, group 2 after `.trim()`).

Derivation of the functional form from the regex, used verbatim below:
the leading `#{1,6}` can only match a prefix of the maximal `'#'` run (a
shorter match leaves a `'#'` where `\s+` needs whitespace), so the run
length must be between 1 and 6 and be followed by a whitespace character.
`\s+` matches the maximal whitespace run (shrinking it only ever exposes a
whitespace character to the lazy group, which `.trim()` then discards
anyway). A string matches the tail `(?:\s*#)*\s*` exactly when all of its
characters are whitespace or `'#'`; the lazy `(.+?)` therefore captures the
shortest non-empty prefix of the remainder whose complement suffix consists
of whitespace and `'#'` only. When the remainder has a character outside
that set, the capture is the remainder cut after its last such character
(and `.trim()` leaves it unchanged); when the remainder is non-empty but
all whitespace/`'#'`, the capture is its first character; when the
remainder is empty, the regex either fails (nothing for `(.+?)`) or
captures a lone whitespace character that `.trim()` erases — both cases
yield an empty trimmed content, which the caller's `if (content)` check
sends to the fall-through, so we return an empty content for both. -/
def headingMatch (cs : JStr) : Option (Nat × JStr) :=
  let hashes := cs.takeWhile (· = '#')
  let rest := cs.dropWhile (· = '#')
  if hashes.length < 1 || 6 < hashes.length then none
  else
    match rest with
    | [] => none
    | c0 :: _ =>
      if jsWs c0 then
        let core := rest.dropWhile jsWs
        let body := (core.reverse.dropWhile (fun c => jsWs c || c = '#')).reverse
        some (hashes.length, if body.isEmpty then core.take 1 else body)
      else none

/-- The code-fence regex `/^```(\w*)\s*$/` (tried only after
`text.startsWith('```')`): greedy `\w*` takes the maximal word run and the
rest must be all whitespace (`\w` and `\s` are disjoint, so no backtracking
can succeed otherwise). Returns the language group. -/
def codeFenceMatch (cs : JStr) : Option JStr :=
  if cs.take 3 = ['`', '`', '`'] then
    let after := cs.drop 3
    let w := after.takeWhile jsWord
    let rest := after.dropWhile jsWord
    if rest.all jsWs then some w else none
  else none

/-- The list regex `/^(\s*)([-*+]|\d+\.)\s+(.+)$/`, returning
(indent length, marker digits or `none` for a bullet marker, group 3).

`(\s*)` takes the maximal leading whitespace run (no marker character is
whitespace, so backtracking it never succeeds). For the ordered alternative
`\d+\.`, only the maximal digit run can succeed (a shorter one leaves a
digit where `'.'` is required). `\s+(.+)$` succeeds exactly when the text
after the marker starts with a whitespace character and has at least two
characters; group 3 then equals that text minus the maximal whitespace run
(or, when the text is all whitespace, minus all but its last character) —
after the caller's `.trim()` both cases collapse to `jsTrim` of the text
after the marker, which is what we return. -/
def listMatch (cs : JStr) : Option (Nat × Option JStr × JStr) :=
  let indent := cs.takeWhile jsWs
  let rest := cs.dropWhile jsWs
  match rest with
  | [] => none
  | c :: tail =>
    if c = '-' || c = '*' || c = '+' then
      if tail.length ≥ 2 && jsWs (tail.headD ' ') then
        some (indent.length, none, jsTrim tail)
      else none
    else if c.isDigit then
      let ds := rest.takeWhile Char.isDigit
      match rest.dropWhile Char.isDigit with
      | '.' :: tail2 =>
        if tail2.length ≥ 2 && jsWs (tail2.headD ' ') then
          some (indent.length, some ds, jsTrim tail2)
        else none
      | _ => none
    else none

/-- Fall-through of `parseMarkdown` after its heading branch (code fence,
list item, paragraph); split out of the single source function only so the
branches can be named in proofs. -/
def parseMarkdownRest (text : JStr) (prevNode : Option Node) : ParseResult :=
    -- Handle code blocks
    match codeFenceMatch text with
    | some w =>
      { type := .code_block, content := [], rawContent := text,
        attributes := { language := if w.isEmpty then none else some w } }
    | none =>
      -- Handle list items
      match listMatch text with
      | some (indentLen, marker, content) =>
        let indentLevel := indentLen / 2
        match marker with
        | some ds =>
          -- ordered item; `parseInt(marker)` reads the digits before the dot
          let markerNumber := digitsToNat ds
          let listNumber :=
            match prevNode with
            | some prev =>
              if prev.type = .list_item
                  && prev.attributes.listType = some .ordered
                  && prev.attributes.listIndent = some indentLevel then
                -- `(prevNode.attributes.listNumber || 0) + 1`
                jsOr0 prev.attributes.listNumber + 1
              else markerNumber
            | none => markerNumber
          { type := .list_item, content := content, rawContent := text,
            attributes := { listType := some .ordered, listIndent := some indentLevel,
                            listNumber := some listNumber } }
        | none =>
          { type := .list_item, content := content, rawContent := text,
            attributes := { listType := some .bullet, listIndent := some indentLevel } }
      | none =>
        -- Default to paragraph
        { type := .paragraph, content := text, rawContent := text, attributes := {} }

/-- Source `parseMarkdown(text, prevNode?)` from `parser.ts`. -/
def parseMarkdown (text : JStr) (prevNode : Option Node) : ParseResult :=
  -- Handle headings
  match headingMatch text with
  | some (level, content) =>
    if level ≤ 6 && !content.isEmpty then
      { type := .heading, content := content, rawContent := text,
        attributes := { level := some level } }
    else parseMarkdownRest text prevNode
  | none => parseMarkdownRest text prevNode

/-- Source `formatNode(node)` from `parser.ts`. `${node.attributes.listNumber}` on a
missing field renders the string `"undefined"`. -/
def formatNode (node : Node) : JStr :=
  match node.type with
  | .heading =>
    repeatStr (str "#") (jsOr1 node.attributes.level) ++ str " " ++ node.content
  | .list_item =>
    let indent := repeatStr (str "  ") (jsOr0 node.attributes.listIndent)
    let marker :=
      if node.attributes.listType = some .ordered then
        (match node.attributes.listNumber with
         | some n => jsNumToString n
         | none => str "undefined") ++ str "."
      else str "-"
    indent ++ marker ++ str " " ++ node.content
  | .code_block =>
    let lang := (node.attributes.language).getD []  -- `language || ''`
    str "```" ++ lang ++ str "\n" ++ node.content ++ str "\n" ++ str "```"
  | .paragraph => node.content

/-! ## Document model (`document.ts`)

`nanoid()` calls are modelled by a `Nat` counter threaded alongside the
state (see the header); each operation receives the ids it may consume as
explicit arguments or from the counter. -/

/-- Source `createEmptyNode(type = 'paragraph', attributes = {})`. -/
def createEmptyNode (id : Nat) (type : NodeType := .paragraph)
    (attributes : NodeAttributes := {}) : Node :=
  { id := id, type := type, content := [], rawContent := [], attributes := attributes }

/-- Source `{ id: nanoid(), ...parseMarkdown(line) }`: a node built from a parse
result. -/
def mkNodeFrom (id : Nat) (r : ParseResult) : Node :=
  { id := id, type := r.type, content := r.content, rawContent := r.rawContent,
    attributes := r.attributes }

/-- Source `parseContent(content)`: split on `'\n'` and parse each line — note the
source passes no `prevNode` here. Node `i` receives the `i`-th fresh id. -/
def parseContent (content : JStr) (k : Nat) : List Node :=
  (splitNl content).enum.map fun p => mkNodeFrom (k + p.1) (parseMarkdown p.2 none)

/-- Source `setContent(content)`: replace the node sequence (a single empty node when
`content` is falsy, i.e. empty), set `activeNodeId` to the first node's id
(`nodes[0]?.id || null`; nanoid ids are non-empty strings, hence truthy),
clear the selection. -/
def setContent (content : JStr) (k : Nat) (s : DocumentState) : DocumentState :=
  let nodes := if content.isEmpty then [createEmptyNode k] else parseContent content k
  { s with nodes := nodes,
           activeNodeId := match nodes[0]? with | some n => some n.id | none => none,
           selection := none }

/-- Source `updateNode(id, content)`: locate by id (`findIndex`), re-parse with the
current previous sibling as context, replace preserving the id. -/
def updateNode (id : Nat) (content : JStr) (s : DocumentState) : DocumentState :=
  match s.nodes.findIdx? (fun n => n.id = id) with
  | none => s
  | some index =>
    let prevNode := if index > 0 then s.nodes[index - 1]? else none
    match s.nodes[index]? with
    | none => s  -- unreachable: `findIdx?` returns an in-range index
    | some old =>
      { s with nodes := s.nodes.set index (mkNodeFrom old.id (parseMarkdown content prevNode)) }

/-- Source `Array.prototype.splice(i, 0, a)` as a list insertion (appending at the
end when `i` exceeds the length, as splice does). -/
def listSplice (i : Nat) (a : α) : List α → List α
  | l =>
    match i, l with
    | 0, l => a :: l
    | _ + 1, [] => [a]
    | n + 1, x :: xs => x :: listSplice n a xs

/-- Source `insertNode(afterId)`: locate by id; the new node continues a list
(`type`/`attributes` copied wholesale) iff the current node is a
`list_item`, else it is a blank paragraph; splice after and activate. -/
def insertNode (afterId : Nat) (newId : Nat) (s : DocumentState) : DocumentState :=
  match s.nodes.findIdx? (fun n => n.id = afterId) with
  | none => s
  | some index =>
    match s.nodes[index]? with
    | none => s  -- unreachable: `findIdx?` returns an in-range index
    | some currentNode =>
      let newType := if currentNode.type = .list_item then NodeType.list_item else .paragraph
      let newAttributes := if currentNode.type = .list_item then currentNode.attributes else {}
      let newNode := createEmptyNode newId newType newAttributes
      { s with nodes := listSplice (index + 1) newNode s.nodes,
               activeNodeId := some newNode.id }

/-- Source `removeNode(id)`: no-op when the id is absent or only one node remains;
otherwise filter it out and activate the node now at `max(0, index-1)` (the
truncated `Nat` subtraction is exactly `Math.max(0, index - 1)`). The
source indexes the filtered array without a bounds check; the `none` arm of
the final match marks that (unreachable) `TypeError`. -/
def removeNode (id : Nat) (s : DocumentState) : DocumentState :=
  match s.nodes.findIdx? (fun n => n.id = id) with
  | none => s
  | some index =>
    if s.nodes.length = 1 then s
    else
      let nodes' := s.nodes.filter (fun n => n.id ≠ id)
      { s with nodes := nodes',
               activeNodeId := match nodes'[index - 1]? with
                               | some n => some n.id
                               | none => none }

/-- Source `setActiveNode(id)`: set only when the id exists. -/
def setActiveNode (id : Nat) (s : DocumentState) : DocumentState :=
  if s.nodes.any (fun n => n.id = id) then { s with activeNodeId := some id } else s

/-- Source `updateSelection(selection)`: unconditional replace. -/
def updateSelection (sel : Selection) (s : DocumentState) : DocumentState :=
  { s with selection := some sel }

/-- Source `toMarkdown()`: join the raw contents with `'\n'`. -/
def toMarkdown (s : DocumentState) : JStr :=
  List.intercalate (str "\n") (s.nodes.map (fun n => n.rawContent))

/-- The `Document` constructor: parse the initial content when it is present
and non-empty (JS truthiness), else start from a single empty node;
`selection` and `activeNodeId` start as `null`. -/
def mkDocument (initialContent : Option JStr) (k : Nat) : DocumentState :=
  { nodes := match initialContent with
             | some c => if c.isEmpty then [createEmptyNode k] else parseContent c k
             | none => [createEmptyNode k],
    selection := none,
    activeNodeId := none }

/-- One externally triggered `Document` mutation. -/
inductive DocOp where
  | setContent (content : JStr)
  | updateNode (id : Nat) (content : JStr)
  | insertNode (afterId : Nat)
  | removeNode (id : Nat)
  | setActiveNode (id : Nat)
  | updateSelection (sel : Selection)

/-- Apply an operation, threading the fresh-id counter. The counter is
bumped past every id an operation could consume (over-approximating the
number of `nanoid()` calls is harmless: only freshness matters). -/
def applyOp (op : DocOp) (st : DocumentState × Nat) : DocumentState × Nat :=
  match op with
  | .setContent content => (setContent content st.2 st.1, st.2 + (splitNl content).length + 1)
  | .updateNode id content => (updateNode id content st.1, st.2)
  | .insertNode afterId => (insertNode afterId st.2 st.1, st.2 + 1)
  | .removeNode id => (removeNode id st.1, st.2)
  | .setActiveNode id => (setActiveNode id st.1, st.2)
  | .updateSelection sel => (updateSelection sel st.1, st.2)

/-- Initial state of an editing session (constructor), with the counter
bumped past the consumed ids. -/
def initDocument (initialContent : Option JStr) (k : Nat) : DocumentState × Nat :=
  (mkDocument initialContent k,
   k + (match initialContent with | some c => (splitNl c).length | none => 0) + 1)

/-! ## Selection state machine (`selection.ts`) -/

/-- The two private fields of `SelectionManager`. -/
structure SelMgr where
  lastSelectionType : Option SelectionType
  lastSelectionTime : Option Int
deriving DecidableEq, Repr

/-- A fresh `SelectionManager` (constructor sets both fields `undefined`). -/
def SelMgr.init : SelMgr := ⟨none, none⟩

/-- Source `createEmptySelection()`. -/
def createEmptySelection : Selection :=
  { range := { start := { line := 0, column := 0 }, «end» := { line := 0, column := 0 } },
    isCollapsed := true, type := .none }

/-- Source `createLineSelection(lineIndex, nodes)`: empty selection when the index is
out of `[0, nodeCount)`, else the full span of that line's `rawContent`. The
`none` arm of the inner match is unreachable under the guard. -/
def createLineSelection (lineIndex : Int) (nodes : List Node) : Selection :=
  if lineIndex < 0 || (nodes.length : Int) ≤ lineIndex then createEmptySelection
  else
    match nodes[lineIndex.toNat]? with
    | none => createEmptySelection
    | some node =>
      { range := { start := { line := lineIndex, column := 0 },
                   «end» := { line := lineIndex, column := (node.rawContent.length : Int) } },
        isCollapsed := false, type := .line }

/-- Source `createDocumentSelection(nodes)`: empty when `nodes` is empty, else the
span from line 0 column 0 to the last line's end. -/
def createDocumentSelection (nodes : List Node) : Selection :=
  match nodes.getLast? with
  | none => createEmptySelection
  | some last =>
    { range := { start := { line := 0, column := 0 },
                 «end» := { line := (nodes.length : Int) - 1,
                            column := (last.rawContent.length : Int) } },
      isCollapsed := false, type := .document }

/-- Source `handleSelectAll(nodes, currentLine)` at time `now` (`Date.now()`):
escalate to a document selection when the previous recorded type is `line`
and the recorded time is truthy (a stored `0` is falsy in
`this.lastSelectionTime && ...`!) and less than 500 ms old; otherwise select
the current line. The timestamp is recorded unconditionally. -/
def handleSelectAll (nodes : List Node) (currentLine : Int) (now : Int)
    (m : SelMgr) : Selection × SelMgr :=
  let isDoublePressCandidate :=
    m.lastSelectionType = some .line &&
      (match m.lastSelectionTime with
       | some t => t ≠ 0 && now - t < 500
       | none => false)
  if isDoublePressCandidate then
    (createDocumentSelection nodes, { m with lastSelectionType := some .document,
                                             lastSelectionTime := some now })
  else
    (createLineSelection currentLine nodes, { m with lastSelectionType := some .line,
                                                     lastSelectionTime := some now })

/-- The swap condition of `normalizeRange`: `start` sorts after `end` by
line, then column. -/
def sortsAfter (a b : Position) : Bool :=
  a.line > b.line || (a.line = b.line && a.column > b.column)

/-- Source `clampPosition(pos, nodes)`: clamp the line into `[0, nodes.length-1]`,
then the column into `[0, rawContent.length]` of that line. The source reads
`nodes[line].rawContent` without a bounds check; on an empty node list this
is a `TypeError`, modelled by `none`. -/
def clampPosition (pos : Position) (nodes : List Node) : Option Position :=
  let line := max 0 (min pos.line ((nodes.length : Int) - 1))
  match nodes[line.toNat]? with
  | none => none
  | some node =>
    some { line := line,
           column := max 0 (min pos.column (node.rawContent.length : Int)) }

/-- Source `normalizeRange(range, nodes)`: when `start` sorts after `end`, return
the swapped range immediately (the source `return`s before the clamping
step); otherwise clamp both endpoints. -/
def normalizeRange (range : Range) (nodes : List Node) : Option Range :=
  if sortsAfter range.start range.«end» then
    some { start := range.«end», «end» := range.start }
  else
    match clampPosition range.start nodes, clampPosition range.«end» nodes with
    | some s, some e => some { start := s, «end» := e }
    | _, _ => none

/-! ## History manager (`index.tsx`, class `History`)

`History` stores `DocumentState` snapshots of the editor in `index.tsx`
without ever inspecting them, so the embedding is parametric in the
snapshot type `σ`. JS arrays push/pop at the end; the `done` and `undone`
lists here keep the most recent transaction at the HEAD, so `push` is
`cons` and `this.done[this.done.length - 1]` is the head. -/

inductive TransactionType where
  | insert_text | delete_text | split_node | merge_nodes | change_type
  | toggle_heading | create_list | remove_list | indent_list | outdent_list
  | change_list_type | join_with_next | split_list_item | merge_list_items
  | change_heading_level
deriving DecidableEq, Repr

structure HTransaction (σ : Type) where
  before : σ
  after : σ
  timestamp : Int
  type : TransactionType
deriving DecidableEq, Repr

structure History (σ : Type) where
  done : List (HTransaction σ)
  undone : List (HTransaction σ)
  lastAddedAt : Int
deriving DecidableEq, Repr

/-- Source `private minTimeDelta = 1000`. -/
def minTimeDelta : Int := 1000

/-- A fresh `History` (`done = []`, `undone = []`, `lastAddedAt = 0`). -/
def History.init : History σ := ⟨[], [], 0⟩

/-- Source `addTransaction(tr)`: always clear `undone`; append when `done` is empty
or the transaction is more than `minTimeDelta` newer than `lastAddedAt` or
differs in type from the top entry (updating `lastAddedAt`); otherwise
merge by replacing only the top entry's `after`. -/
def addTransaction (tr : HTransaction σ) (h : History σ) : History σ :=
  match h.done with
  | [] => { done := [tr], undone := [], lastAddedAt := tr.timestamp }
  | top :: rest =>
    if tr.timestamp - h.lastAddedAt > minTimeDelta || top.type ≠ tr.type then
      { done := tr :: top :: rest, undone := [], lastAddedAt := tr.timestamp }
    else
      { done := { top with after := tr.after } :: rest, undone := [],
        lastAddedAt := h.lastAddedAt }

/-- Source `undo()`: pop from `done` (returning `null` on empty), push onto
`undone`, return the `before` snapshot. -/
def undo (h : History σ) : Option σ × History σ :=
  match h.done with
  | [] => (none, h)
  | tr :: rest => (some tr.before, { h with done := rest, undone := tr :: h.undone })

/-- Source `redo()`: pop from `undone` (returning `null` on empty), push onto
`done`, return the `after` snapshot. -/
def redo (h : History σ) : Option σ × History σ :=
  match h.undone with
  | [] => (none, h)
  | tr :: rest => (some tr.after, { h with done := tr :: h.done, undone := rest })

/-- Source `canUndo()`. -/
def canUndo (h : History σ) : Bool := h.done.length > 0

/-- Source `canRedo()`. -/
def canRedo (h : History σ) : Bool := h.undone.length > 0

/-! ## Helper lemmas -/

theorem takeWhile_all_append {p : α → Bool} {xs : List α} {b : α} (l : List α)
    (h : ∀ x ∈ xs, p x = true) (hb : p b = false) :
    (xs ++ b :: l).takeWhile p = xs := by
  induction xs with
  | nil => simp [List.takeWhile_cons, hb]
  | cons a t ih =>
    have ha : p a = true := h a (by simp)
    simp only [List.cons_append, List.takeWhile_cons, ha, if_pos]
    simp [ih (fun x hx => h x (by simp [hx]))]

theorem dropWhile_all_append {p : α → Bool} {xs : List α} {b : α} (l : List α)
    (h : ∀ x ∈ xs, p x = true) (hb : p b = false) :
    (xs ++ b :: l).dropWhile p = b :: l := by
  induction xs with
  | nil => simp [List.dropWhile_cons, hb]
  | cons a t ih =>
    have ha : p a = true := h a (by simp)
    simp only [List.cons_append, List.dropWhile_cons, ha, if_pos]
    exact ih (fun x hx => h x (by simp [hx]))

theorem takeWhile_all {p : α → Bool} {xs : List α} (h : ∀ x ∈ xs, p x = true) :
    xs.takeWhile p = xs :=
  List.takeWhile_eq_self_iff.mpr h

theorem dropWhile_all {p : α → Bool} {xs : List α} (h : ∀ x ∈ xs, p x = true) :
    xs.dropWhile p = [] :=
  List.dropWhile_eq_nil_iff.mpr h

theorem takeWhile_replicate_cons {p : α → Bool} {a b : α} (n : Nat) (l : List α)
    (ha : p a = false) (hb : p b = false) :
    (List.replicate n a ++ b :: l).takeWhile p = [] := by
  cases n with
  | zero => simp [List.takeWhile_cons, hb]
  | succ m => simp [List.replicate_succ, List.takeWhile_cons, ha]

theorem dropWhile_cons_neg {p : α → Bool} {a : α} {l : List α} (h : p a = false) :
    (a :: l).dropWhile p = a :: l := by
  simp [List.dropWhile_cons, h]

/-- Strip of a trailing-clean list from the right leaves it unchanged. -/
theorem reverse_dropWhile_reverse {p : α → Bool} {c : List α} {c0 : α} {c' : List α}
    (hc : c = c0 :: c') (hlast : p (c.getLast (by simp [hc])) = false) :
    (c.reverse.dropWhile p).reverse = c := by
  have hne : c ≠ [] := by simp [hc]
  obtain ⟨r, rs, hr⟩ : ∃ r rs, c.reverse = r :: rs := by
    cases hrev : c.reverse with
    | nil => exact absurd (by simpa using congrArg List.reverse hrev) hne
    | cons r rs => exact ⟨r, rs, rfl⟩
  have hhead : c.reverse.head? = some r := by rw [hr]; rfl
  rw [List.head?_reverse] at hhead
  have : r = c.getLast hne := by
    rw [List.getLast?_eq_getLast c hne] at hhead
    exact (Option.some_inj.mp hhead).symm
  rw [hr, dropWhile_cons_neg (this ▸ hlast), ← hr, List.reverse_reverse]

theorem splitNl_ne_nil (cs : JStr) : splitNl cs ≠ [] := by
  induction cs with
  | nil => simp [splitNl]
  | cons c rest ih =>
    simp only [splitNl]
    cases h : splitNl rest with
    | nil => simp
    | cons l ls => dsimp only; split <;> simp

theorem listSplice_perm (i : Nat) (a : α) (l : List α) :
    (listSplice i a l).Perm (a :: l) := by
  induction l generalizing i with
  | nil => cases i <;> simp [listSplice]
  | cons x xs ih =>
    cases i with
    | zero => simp [listSplice]
    | succ n =>
      simp only [listSplice]
      exact ((ih n).cons x).trans (List.Perm.swap a x xs)

theorem length_listSplice (i : Nat) (a : α) (l : List α) :
    (listSplice i a l).length = l.length + 1 :=
  (listSplice_perm i a l).length_eq

theorem set_getElem?_self {l : List α} {i : Nat} {a : α} (h : l[i]? = some a) :
    l.set i a = l := by
  induction l generalizing i with
  | nil => simp at h
  | cons x xs ih =>
    cases i with
    | zero => simp_all
    | succ n => simp_all [List.set_cons_succ]

/-- Every character that `jsNumToString` emits is a decimal digit. -/
theorem jsNumToString_digits (n : Nat) : ∀ c ∈ jsNumToString n, c.isDigit = true := by
  induction n using Nat.strong_induction_on with
  | _ n ih =>
    intro c hc
    rw [jsNumToString] at hc
    split at hc
    · next h =>
      simp only [List.mem_singleton] at hc
      subst hc
      interval_cases n <;> decide
    · next h =>
      rcases List.mem_append.mp hc with h1 | h2
      · exact ih (n / 10) (Nat.div_lt_self (by omega) (by omega)) c h1
      · simp only [List.mem_singleton] at h2
        subst h2
        have : n % 10 < 10 := Nat.mod_lt _ (by omega)
        interval_cases h10 : n % 10 <;> simp_all <;> decide

theorem jsNumToString_ne_nil (n : Nat) : jsNumToString n ≠ [] := by
  rw [jsNumToString]; split <;> simp

theorem digitsToNat_append (xs : JStr) (d : Char) :
    digitsToNat (xs ++ [d]) = (digitsToNat xs) * 10 + (d.toNat - 48) := by
  simp [digitsToNat, List.foldl_append]

/-- Parsing inverts decimal rendering. -/
theorem digitsToNat_jsNumToString (n : Nat) : digitsToNat (jsNumToString n) = n := by
  induction n using Nat.strong_induction_on with
  | _ n ih =>
    rw [jsNumToString]
    split
    · next h =>
      simp only [digitsToNat, List.foldl_cons, List.foldl_nil]
      interval_cases n <;> decide
    · next h =>
      rw [digitsToNat_append, ih (n / 10) (Nat.div_lt_self (by omega) (by omega))]
      have h10 : n % 10 < 10 := Nat.mod_lt _ (by omega)
      have hchar : (Nat.digitChar (n % 10)).toNat - 48 = n % 10 := by
        interval_cases hm : n % 10 <;> simp_all <;> decide
      rw [hchar]
      omega

/-- A decimal digit is not whitespace, a hash, a backtick, or a list bullet
marker. -/
theorem digit_facts {c : Char} (h : c.isDigit = true) :
    jsWs c = false ∧ (c = '#') = False ∧ (c = '`') = False ∧
    (c = '-') = False ∧ (c = '*') = False ∧ (c = '+') = False := by
  refine ⟨?_, ?_, ?_, ?_, ?_, ?_⟩
  · simp only [jsWs, Bool.or_eq_false_iff, decide_eq_false_iff_not]
    refine ⟨⟨⟨⟨⟨?_, ?_⟩, ?_⟩, ?_⟩, ?_⟩, ?_⟩ <;>
      (intro hc; subst hc; exact absurd h (by decide))
  all_goals
    simp only [eq_iff_iff, iff_false]
    intro hc; subst hc; exact absurd h (by decide)

theorem repeatStr_single (a : Char) (n : Nat) :
    repeatStr [a] n = List.replicate n a := by
  induction n with
  | zero => simp [repeatStr]
  | succ m ih => simp only [repeatStr, List.replicate_succ, List.flatten_cons] at *; simp [ih]

theorem repeatStr_pair (a : Char) (n : Nat) :
    repeatStr [a, a] n = List.replicate (2 * n) a := by
  induction n with
  | zero => simp [repeatStr]
  | succ m ih =>
    simp only [repeatStr, List.replicate_succ, List.flatten_cons] at *
    rw [ih]
    have : 2 * (m + 1) = (2 * m) + 1 + 1 := by omega
    rw [this, List.replicate_succ, List.replicate_succ]
    rfl

/-! ## Canonical-input lemmas for the parser -/

/-- Canonical content: non-empty, starting and ending in non-whitespace. -/
def canonContent (c : JStr) : Bool :=
  !c.isEmpty && !jsWs (c.headD ' ') && !jsWs (c.getLastD ' ')

/-- Canonical heading content additionally does not end in `'#'`
(a trailing hash would be stripped by the heading regex). -/
def canonHeadingContent (c : JStr) : Bool :=
  canonContent c && !(c.getLastD ' ' = '#')

theorem getLastD_cons_eq_getLast (c0 : α) (c' : List α) (d : α) :
    (c0 :: c').getLastD d = (c0 :: c').getLast (by simp) := by
  rw [List.getLastD_eq_getLast?, List.getLast?_eq_getLast _ (by simp)]
  rfl

theorem jsTrim_canonical (c0 : Char) (c' : JStr)
    (h0 : jsWs c0 = false) (hlast : jsWs ((c0 :: c').getLast (by simp)) = false) :
    jsTrim (' ' :: c0 :: c') = c0 :: c' := by
  unfold jsTrim
  rw [List.dropWhile_cons]
  simp only [show jsWs ' ' = true by decide, if_pos]
  rw [dropWhile_cons_neg h0]
  exact reverse_dropWhile_reverse rfl hlast

theorem headingMatch_canonical (k : Nat) (c0 : Char) (c' : JStr)
    (hk1 : 1 ≤ k) (hk6 : k ≤ 6) (h0 : jsWs c0 = false)
    (hlast : jsWs ((c0 :: c').getLast (by simp)) = false)
    (hlasth : (c0 :: c').getLast (by simp) ≠ '#') :
    headingMatch (List.replicate k '#' ++ ' ' :: c0 :: c') = some (k, c0 :: c') := by
  unfold headingMatch
  rw [takeWhile_all_append _ (fun x hx => by simp [List.eq_of_mem_replicate hx]) (by decide),
      dropWhile_all_append _ (fun x hx => by simp [List.eq_of_mem_replicate hx]) (by decide)]
  simp only [List.length_replicate]
  rw [if_neg (by simp; omega)]
  simp only [show jsWs ' ' = true by decide, if_pos]
  rw [List.dropWhile_cons]
  simp only [show jsWs ' ' = true by decide, if_pos]
  rw [dropWhile_cons_neg h0]
  rw [reverse_dropWhile_reverse rfl
        (by simp only [Bool.or_eq_false_iff]
            exact ⟨hlast, by simpa using hlasth⟩)]
  simp

theorem listMatch_bullet_canonical (i : Nat) (c0 : Char) (c' : JStr)
    (h0 : jsWs c0 = false) (hlast : jsWs ((c0 :: c').getLast (by simp)) = false) :
    listMatch (List.replicate (2 * i) ' ' ++ '-' :: ' ' :: c0 :: c') =
      some (2 * i, none, c0 :: c') := by
  unfold listMatch
  rw [takeWhile_all_append _ (fun x hx => by rw [List.eq_of_mem_replicate hx]; decide) (by decide),
      dropWhile_all_append _ (fun x hx => by rw [List.eq_of_mem_replicate hx]; decide) (by decide)]
  simp only [List.length_replicate]
  simp [jsTrim_canonical c0 c' h0 hlast, show jsWs ' ' = true from by decide]

theorem listMatch_ordered_canonical (i n : Nat) (c0 : Char) (c' : JStr)
    (h0 : jsWs c0 = false) (hlast : jsWs ((c0 :: c').getLast (by simp)) = false) :
    listMatch (List.replicate (2 * i) ' ' ++ (jsNumToString n ++ '.' :: ' ' :: c0 :: c')) =
      some (2 * i, some (jsNumToString n), c0 :: c') := by
  obtain ⟨d0, ds, hds⟩ : ∃ d0 ds, jsNumToString n = d0 :: ds := by
    cases h : jsNumToString n with
    | nil => exact absurd h (jsNumToString_ne_nil n)
    | cons d0 ds => exact ⟨d0, ds, rfl⟩
  have hd0 : d0.isDigit = true := jsNumToString_digits n d0 (by rw [hds]; simp)
  have hall : ∀ x ∈ jsNumToString n, x.isDigit = true := jsNumToString_digits n
  unfold listMatch
  rw [hds, List.cons_append]
  rw [takeWhile_all_append _ (fun x hx => by rw [List.eq_of_mem_replicate hx]; decide)
        (digit_facts hd0).1,
      dropWhile_all_append _ (fun x hx => by rw [List.eq_of_mem_replicate hx]; decide)
        (digit_facts hd0).1]
  simp only [List.length_replicate]
  have hnotbullet : (decide (d0 = '-') || decide (d0 = '*') || decide (d0 = '+')) = false := by
    obtain ⟨-, -, -, f1, f2, f3⟩ := digit_facts hd0
    simp [f1, f2, f3]
  rw [if_neg (by simp_all)]
  rw [if_pos (by simp [hd0])]
  have hshape : d0 :: (ds ++ '.' :: ' ' :: c0 :: c') =
      (d0 :: ds) ++ '.' :: (' ' :: c0 :: c') := by simp
  rw [hshape, ← hds,
      takeWhile_all_append _ hall (by decide),
      dropWhile_all_append _ hall (by decide)]
  simp [jsTrim_canonical c0 c' h0 hlast, show jsWs ' ' = true from by decide]

theorem headingMatch_of_no_hashes {cs : JStr}
    (h : cs.takeWhile (· = '#') = []) : headingMatch cs = none := by
  unfold headingMatch
  rw [h]
  simp

theorem codeFenceMatch_replicate_cons (a b : Char) (n : Nat) (l : JStr)
    (ha : a ≠ '`') (hb : b ≠ '`') :
    codeFenceMatch (List.replicate n a ++ b :: l) = none := by
  cases n with
  | zero =>
    unfold codeFenceMatch
    rw [if_neg]
    simp only [List.replicate_zero, List.nil_append, List.take_succ_cons]
    intro hc
    exact hb (by injection hc)
  | succ m =>
    unfold codeFenceMatch
    rw [if_neg]
    rw [List.replicate_succ]
    simp only [List.cons_append, List.take_succ_cons]
    intro hc
    exact ha (by injection hc)

theorem parseMarkdown_heading_canonical (k : Nat) (c0 : Char) (c' : JStr)
    (hk1 : 1 ≤ k) (hk6 : k ≤ 6) (h0 : jsWs c0 = false)
    (hlast : jsWs ((c0 :: c').getLast (by simp)) = false)
    (hlasth : (c0 :: c').getLast (by simp) ≠ '#') :
    parseMarkdown (List.replicate k '#' ++ ' ' :: c0 :: c') none =
      { type := .heading, content := c0 :: c',
        rawContent := List.replicate k '#' ++ ' ' :: c0 :: c',
        attributes := { level := some k } } := by
  unfold parseMarkdown
  rw [headingMatch_canonical k c0 c' hk1 hk6 h0 hlast hlasth]
  simp [hk6]

theorem parseMarkdown_bullet_canonical (i : Nat) (c0 : Char) (c' : JStr)
    (h0 : jsWs c0 = false) (hlast : jsWs ((c0 :: c').getLast (by simp)) = false) :
    parseMarkdown (List.replicate (2 * i) ' ' ++ '-' :: ' ' :: c0 :: c') none =
      { type := .list_item, content := c0 :: c',
        rawContent := List.replicate (2 * i) ' ' ++ '-' :: ' ' :: c0 :: c',
        attributes := { listType := some .bullet, listIndent := some i } } := by
  unfold parseMarkdown
  rw [headingMatch_of_no_hashes (takeWhile_replicate_cons _ _ (by decide) (by decide))]
  unfold parseMarkdownRest
  rw [codeFenceMatch_replicate_cons ' ' '-' _ _ (by decide) (by decide)]
  rw [listMatch_bullet_canonical i c0 c' h0 hlast]
  simp [Nat.mul_div_cancel_left i (by omega : 0 < 2)]

theorem parseMarkdown_ordered_canonical (i n : Nat) (c0 : Char) (c' : JStr)
    (h0 : jsWs c0 = false) (hlast : jsWs ((c0 :: c').getLast (by simp)) = false) :
    parseMarkdown (List.replicate (2 * i) ' ' ++ (jsNumToString n ++ '.' :: ' ' :: c0 :: c')) none =
      { type := .list_item, content := c0 :: c',
        rawContent := List.replicate (2 * i) ' ' ++ (jsNumToString n ++ '.' :: ' ' :: c0 :: c'),
        attributes := { listType := some .ordered, listIndent := some i,
                        listNumber := some n } } := by
  obtain ⟨d0, ds, hds⟩ : ∃ d0 ds, jsNumToString n = d0 :: ds := by
    cases h : jsNumToString n with
    | nil => exact absurd h (jsNumToString_ne_nil n)
    | cons d0 ds => exact ⟨d0, ds, rfl⟩
  have hd0 : d0.isDigit = true := jsNumToString_digits n d0 (by rw [hds]; simp)
  have hshape : List.replicate (2 * i) ' ' ++ (jsNumToString n ++ '.' :: ' ' :: c0 :: c') =
      List.replicate (2 * i) ' ' ++ d0 :: (ds ++ '.' :: ' ' :: c0 :: c') := by
    rw [hds]; simp
  unfold parseMarkdown
  rw [hshape,
      headingMatch_of_no_hashes
        (takeWhile_replicate_cons _ _ (by decide) (by simpa using (digit_facts hd0).2.1)),
      ← hshape]
  unfold parseMarkdownRest
  rw [hshape,
      codeFenceMatch_replicate_cons ' ' d0 _ _ (by decide)
        (by simpa [eq_iff_iff, iff_false] using (digit_facts hd0).2.2.1),
      ← hshape]
  rw [listMatch_ordered_canonical i n c0 c' h0 hlast]
  simp [Nat.mul_div_cancel_left i (by omega : 0 < 2), digitsToNat_jsNumToString]

theorem parseMarkdown_fence (w : JStr) (hw : ∀ ch ∈ w, jsWord ch = true) :
    parseMarkdown ('`' :: '`' :: '`' :: w) none =
      { type := .code_block, content := [], rawContent := '`' :: '`' :: '`' :: w,
        attributes := { language := if w.isEmpty then none else some w } } := by
  unfold parseMarkdown
  rw [headingMatch_of_no_hashes (by rw [List.takeWhile_cons]; simp)]
  unfold parseMarkdownRest
  unfold codeFenceMatch
  simp only [List.take_succ_cons, List.drop_succ_cons, List.take_zero, List.drop_zero,
             if_pos rfl]
  rw [takeWhile_all hw, dropWhile_all hw]
  simp

theorem canonContent_spec {c0 : Char} {c' : JStr} (h : canonContent (c0 :: c') = true) :
    jsWs c0 = false ∧ jsWs ((c0 :: c').getLast (by simp)) = false := by
  rw [canonContent, getLastD_cons_eq_getLast] at h
  simp only [List.headD_cons, Bool.and_eq_true, Bool.not_eq_true'] at h
  exact ⟨h.1.2, h.2⟩

theorem canonHeadingContent_spec {c0 : Char} {c' : JStr}
    (h : canonHeadingContent (c0 :: c') = true) :
    jsWs c0 = false ∧ jsWs ((c0 :: c').getLast (by simp)) = false ∧
      (c0 :: c').getLast (by simp) ≠ '#' := by
  rw [canonHeadingContent] at h
  simp only [Bool.and_eq_true] at h
  obtain ⟨h1, h2⟩ := canonContent_spec h.1
  refine ⟨h1, h2, ?_⟩
  have := h.2
  rw [getLastD_cons_eq_getLast] at this
  simpa using this

theorem formatNode_heading (id k : Nat) (c raw : JStr) (hk : k ≠ 0) :
    formatNode ⟨id, .heading, c, raw, { level := some k }⟩ =
      List.replicate k '#' ++ ' ' :: c := by
  show repeatStr (str "#") (jsOr1 (some k)) ++ str " " ++ c = _
  rw [show str "#" = ['#'] from rfl, show str " " = [' '] from rfl]
  simp [jsOr1, hk, repeatStr_single]

theorem formatNode_bullet (id i : Nat) (c raw : JStr) :
    formatNode ⟨id, .list_item, c, raw, { listType := some .bullet, listIndent := some i }⟩ =
      List.replicate (2 * i) ' ' ++ '-' :: ' ' :: c := by
  show (repeatStr (str "  ") (jsOr0 (some i)) ++ _ ++ str " " ++ c) = _
  rw [show str "  " = [' ', ' '] from rfl, show str " " = [' '] from rfl,
      show str "-" = ['-'] from rfl]
  simp [jsOr0, repeatStr_pair]

theorem formatNode_ordered (id i n : Nat) (c raw : JStr) :
    formatNode ⟨id, .list_item, c, raw,
        { listType := some .ordered, listIndent := some i, listNumber := some n }⟩ =
      List.replicate (2 * i) ' ' ++ (jsNumToString n ++ '.' :: ' ' :: c) := by
  show (repeatStr (str "  ") (jsOr0 (some i)) ++ _ ++ str " " ++ c) = _
  rw [show str "  " = [' ', ' '] from rfl, show str " " = [' '] from rfl,
      show str "." = ['.'] from rfl]
  simp [jsOr0, repeatStr_pair]

theorem formatNode_fence (id : Nat) (raw w : JStr) :
    formatNode ⟨id, .code_block, [], raw,
        { language := if w.isEmpty then none else some w }⟩ =
      '`' :: '`' :: '`' :: (w ++ '\n' :: '\n' :: '`' :: '`' :: '`' :: []) := by
  cases w with
  | nil => rfl
  | cons a as =>
    show str "```" ++ _ ++ str "\n" ++ [] ++ str "\n" ++ str "```" = _
    simp [str]

/-- C3 (corrected). For every canonical heading line `'#'*k ++ " " ++ c`
(`1 ≤ k ≤ 6`, content non-empty, not starting/ending in whitespace, not
ending in `'#'`) and every canonical list-item line
`"  "*i ++ ("-"|n++".") ++ " " ++ c`, `formatNode (parseLine x) = x`
holds byte-for-byte. It does NOT hold for canonical code-fence lines: there
`formatNode` yields the three-line block `fence ++ lang ++ "\n" ++ content
++ "\n" ++ fence` — the fourth conjunct gives the exact output. -/
theorem C3_roundtrip_canonical :
    (∀ (k : Nat) (c0 : Char) (c' : JStr), 1 ≤ k → k ≤ 6 →
      canonHeadingContent (c0 :: c') = true →
      formatNode (mkNodeFrom 0 (parseMarkdown (List.replicate k '#' ++ ' ' :: c0 :: c') none)) =
        List.replicate k '#' ++ ' ' :: c0 :: c')
    ∧ (∀ (i : Nat) (c0 : Char) (c' : JStr), canonContent (c0 :: c') = true →
      formatNode (mkNodeFrom 0
          (parseMarkdown (List.replicate (2 * i) ' ' ++ '-' :: ' ' :: c0 :: c') none)) =
        List.replicate (2 * i) ' ' ++ '-' :: ' ' :: c0 :: c')
    ∧ (∀ (i n : Nat) (c0 : Char) (c' : JStr), canonContent (c0 :: c') = true →
      formatNode (mkNodeFrom 0
          (parseMarkdown
            (List.replicate (2 * i) ' ' ++ (jsNumToString n ++ '.' :: ' ' :: c0 :: c')) none)) =
        List.replicate (2 * i) ' ' ++ (jsNumToString n ++ '.' :: ' ' :: c0 :: c'))
    ∧ (∀ (w : JStr), (∀ ch ∈ w, jsWord ch = true) →
      formatNode (mkNodeFrom 0 (parseMarkdown ('`' :: '`' :: '`' :: w) none)) =
        '`' :: '`' :: '`' :: (w ++ '\n' :: '\n' :: '`' :: '`' :: '`' :: [])) := by
  refine ⟨?_, ?_, ?_, ?_⟩
  · intro k c0 c' hk1 hk6 hc
    obtain ⟨h0, hlast, hlasth⟩ := canonHeadingContent_spec hc
    rw [parseMarkdown_heading_canonical k c0 c' hk1 hk6 h0 hlast hlasth]
    exact formatNode_heading 0 k _ _ (by omega)
  · intro i c0 c' hc
    obtain ⟨h0, hlast⟩ := canonContent_spec hc
    rw [parseMarkdown_bullet_canonical i c0 c' h0 hlast]
    exact formatNode_bullet 0 i _ _
  · intro i n c0 c' hc
    obtain ⟨h0, hlast⟩ := canonContent_spec hc
    rw [parseMarkdown_ordered_canonical i n c0 c' h0 hlast]
    exact formatNode_ordered 0 i n _ _
  · intro w hw
    rw [parseMarkdown_fence w hw]
    exact formatNode_fence 0 _ w

/-- C3, counterexample to the claim as stated: the canonical code-fence line
"```js" does not round-trip — `formatNode (parseLine x)` is the three-line
string "```js\n\n```". -/
theorem C3_fence_counterexample :
    formatNode (mkNodeFrom 0 (parseMarkdown (str "```js") none)) = str "```js\n\n```" ∧
    str "```js\n\n```" ≠ str "```js" := by
  constructor
  · rfl
  · decide

/-- C3, witness: the round-trip theorem applied at "## ab", "  - x",
"1. a" (as `jsNumToString 1 ++ ". a"`), and the fence "```js". -/
theorem C3_roundtrip_witness :
    (formatNode (mkNodeFrom 0 (parseMarkdown (str "## ab") none)) = str "## ab")
    ∧ (formatNode (mkNodeFrom 0 (parseMarkdown (str "  - x") none)) = str "  - x")
    ∧ (formatNode (mkNodeFrom 0
          (parseMarkdown (List.replicate (2 * 0) ' '
            ++ (jsNumToString 1 ++ '.' :: ' ' :: 'a' :: [])) none)) =
        List.replicate (2 * 0) ' ' ++ (jsNumToString 1 ++ '.' :: ' ' :: 'a' :: []))
    ∧ (formatNode (mkNodeFrom 0 (parseMarkdown (str "```js") none)) =
        '`' :: '`' :: '`' :: (('j' :: 's' :: []) ++ '\n' :: '\n' :: '`' :: '`' :: '`' :: [])) :=
  ⟨C3_roundtrip_canonical.1 2 'a' ['b'] (by omega) (by omega) (by decide),
   C3_roundtrip_canonical.2.1 1 'x' [] (by decide),
   C3_roundtrip_canonical.2.2.1 0 1 'a' [] (by decide),
   C3_roundtrip_canonical.2.2.2 ('j' :: 's' :: []) (by decide)⟩

/-! ## C1: `setContent` parses lines without threading `prevNode` -/

/-- C1 (corrected). `setContent` splits on line breaks, but `parseContent`
calls `parseMarkdown(line)` with NO `prevNode` argument: every line is
parsed without list context (the threading happens only in `updateNode`).
The resulting node fields are exactly the per-line parses with empty
context; ids aside, the result is independent of parse order. -/
theorem C1_setContent_no_threading :
    ∀ (content : JStr) (k : Nat) (s : DocumentState),
      (setContent content k s).nodes.map
          (fun n => (n.type, n.content, n.rawContent, n.attributes)) =
        if content.isEmpty then
          [(NodeType.paragraph, ([] : JStr), ([] : JStr), ({} : NodeAttributes))]
        else
          (splitNl content).map
            (fun line => ((parseMarkdown line none).type, (parseMarkdown line none).content,
                          (parseMarkdown line none).rawContent,
                          (parseMarkdown line none).attributes)) := by
  intro content k s
  unfold setContent parseContent
  cases h : content.isEmpty with
  | true => simp [h, createEmptyNode]
  | false =>
    simp only [h, Bool.false_eq_true, if_false, List.map_map]
    have : ((fun n => (n.type, n.content, n.rawContent, n.attributes)) ∘
        (fun p : Nat × JStr => mkNodeFrom (k + p.1) (parseMarkdown p.2 none))) =
        ((fun line => ((parseMarkdown line none).type, (parseMarkdown line none).content,
                       (parseMarkdown line none).rawContent,
                       (parseMarkdown line none).attributes)) ∘ Prod.snd) := by
      funext p
      rfl
    rw [this, ← List.map_map, List.enum_map_snd]

/-- C1, counterexample to the claim as stated: loading "1. a\n1. b\n1. c"
through `setContent` yields `listNumber`s `[1, 1, 1]`, not `[1, 2, 3]` —
`parseContent` does not thread the previous node into the next parse. -/
theorem C1_listNumbers_counterexample :
    (setContent (str "1. a\n1. b\n1. c") 0 ⟨[], none, none⟩).nodes.map
        (fun n => n.attributes.listNumber) =
      [some 1, some 1, some 1] ∧
    ([some 1, some 1, some 1] : List (Option Nat)) ≠ [some 1, some 2, some 3] := by
  constructor
  · rfl
  · decide

/-! ## C4: `insertNode` -/

/-- C4 (amended). `insertNode(afterId)`: on an absent id, a no-op; after a
`list_item` node, the spliced node is an empty-content `list_item` whose
`attributes` record is copied WHOLESALE from the current node — including
`listNumber` (the claim's "listNumber is not copied" is false); after any
other node, a blank paragraph with empty attributes. The new node becomes
`activeNodeId` in both insert branches. -/
theorem C4_insertNode_behaviour :
    ∀ (s : DocumentState) (afterId newId : Nat),
      (s.nodes.findIdx? (fun n => n.id = afterId) = none →
        insertNode afterId newId s = s)
      ∧ (∀ i cur, s.nodes.findIdx? (fun n => n.id = afterId) = some i →
          s.nodes[i]? = some cur →
          (cur.type = .list_item →
            insertNode afterId newId s =
              { s with nodes := listSplice (i + 1)
                         { id := newId, type := .list_item, content := [], rawContent := [],
                           attributes := cur.attributes } s.nodes,
                       activeNodeId := some newId })
          ∧ (cur.type ≠ .list_item →
            insertNode afterId newId s =
              { s with nodes := listSplice (i + 1)
                         { id := newId, type := .paragraph, content := [], rawContent := [],
                           attributes := {} } s.nodes,
                       activeNodeId := some newId })) := by
  intro s afterId newId
  constructor
  · intro h
    unfold insertNode
    rw [h]
  · intro i cur hidx hget
    constructor
    · intro hty
      unfold insertNode
      rw [hidx]
      dsimp only
      rw [hget]
      simp [createEmptyNode, hty]
    · intro hty
      unfold insertNode
      rw [hidx]
      dsimp only
      rw [hget]
      simp only [createEmptyNode]
      rw [if_neg hty, if_neg hty]

/-- A one-node document whose node is an ordered list item with
`listNumber = 1`, for the C4 counterexample and witness. -/
def c4State : DocumentState :=
  ⟨[⟨0, .list_item, str "x", str "1. x",
     { listType := some .ordered, listIndent := some 0, listNumber := some 1 }⟩],
   none, none⟩

/-- C4, counterexample to the claim as stated: inserting after an ordered
`list_item` with `listNumber = 1` produces a new node whose content is empty
but whose `attributes.listNumber` IS `some 1` — the field is copied directly,
not left unset until the next parse. -/
theorem C4_listNumber_copied_counterexample :
    ((insertNode 0 1 c4State).nodes[1]?).map (fun n => (n.content, n.attributes.listNumber)) =
      some (([] : JStr), some 1) ∧
    (some 1 : Option Nat) ≠ none := by
  constructor
  · rfl
  · decide

/-- C4, witness: the behaviour theorem applied to `c4State`. -/
theorem C4_insertNode_witness :
    insertNode 0 1 c4State =
      { c4State with
        nodes := listSplice 1
          { id := 1, type := .list_item, content := [], rawContent := [],
            attributes := { listType := some .ordered, listIndent := some 0,
                            listNumber := some 1 } } c4State.nodes,
        activeNodeId := some 1 } :=
  (((C4_insertNode_behaviour c4State 0 1).2 0
      ⟨0, .list_item, str "x", str "1. x",
       { listType := some .ordered, listIndent := some 0, listNumber := some 1 }⟩
      rfl rfl).1) rfl

/-! ## C7: the node sequence is never empty -/

theorem map_listSplice (f : α → β) (i : Nat) (a : α) (l : List α) :
    (listSplice i a l).map f = listSplice i (f a) (l.map f) := by
  induction l generalizing i with
  | nil => cases i <;> simp [listSplice]
  | cons x xs ih =>
    cases i with
    | zero => simp [listSplice]
    | succ n => simp [listSplice, ih]

theorem parseContent_ids (c : JStr) (k : Nat) :
    (parseContent c k).map (fun n => n.id) =
      (List.range (splitNl c).length).map (k + ·) := by
  unfold parseContent
  rw [List.map_map]
  have : ((fun n => n.id) ∘ fun p : Nat × JStr => mkNodeFrom (k + p.1) (parseMarkdown p.2 none)) =
      ((k + ·) ∘ Prod.fst) := by
    funext p
    rfl
  rw [this, ← List.map_map, List.enum_map_fst]

theorem parseContent_ne_nil (c : JStr) (k : Nat) : parseContent c k ≠ [] := by
  unfold parseContent
  simp [splitNl_ne_nil]

theorem parseContent_id_lt (c : JStr) (k : Nat) :
    ∀ n ∈ parseContent c k, n.id < k + (splitNl c).length := by
  intro n hn
  have : n.id ∈ (parseContent c k).map (fun n => n.id) := List.mem_map_of_mem _ hn
  rw [parseContent_ids] at this
  obtain ⟨j, hj, hid⟩ := List.mem_map.mp this
  rw [List.mem_range] at hj
  omega

theorem parseContent_nodup (c : JStr) (k : Nat) :
    ((parseContent c k).map (fun n => n.id)).Nodup := by
  rw [parseContent_ids]
  exact (List.nodup_range _).map (fun a b h => by omega)

/-- The invariant carried through every operation: the node sequence is
non-empty, node ids are pairwise distinct, and all ids are below the fresh
counter. -/
def docInv (st : DocumentState × Nat) : Prop :=
  st.1.nodes ≠ [] ∧ (st.1.nodes.map (fun n => n.id)).Nodup ∧
    ∀ n ∈ st.1.nodes, n.id < st.2

theorem docInv_init (initial : Option JStr) (k : Nat) :
    docInv (initDocument initial k) := by
  unfold initDocument mkDocument docInv
  rcases initial with _ | c
  · refine ⟨by simp, by simp, ?_⟩
    intro n hn
    simp at hn
    subst hn
    show k < k + 0 + 1
    omega
  · dsimp only
    cases h : c.isEmpty with
    | true =>
      refine ⟨by simp [h], by simp [h], ?_⟩
      intro n hn
      simp only [h, if_true, List.mem_singleton] at hn
      subst hn
      show k < k + (splitNl c).length + 1
      omega
    | false =>
      refine ⟨by simp [h, parseContent_ne_nil], by simp [h, parseContent_nodup], ?_⟩
      intro n hn
      simp only [h, Bool.false_eq_true, if_false] at hn
      have := parseContent_id_lt c k n hn
      show n.id < k + (splitNl c).length + 1
      omega

theorem docInv_mono {s : DocumentState} {k k' : Nat} (h : docInv (s, k)) (hk : k ≤ k') :
    docInv (s, k') := by
  obtain ⟨h1, h2, h3⟩ := h
  exact ⟨h1, h2, fun n hn => lt_of_lt_of_le (h3 n hn) hk⟩

theorem docInv_setContent {s : DocumentState} {k : Nat} (content : JStr) :
    docInv (setContent content k s, k + (splitNl content).length + 1) := by
  unfold setContent docInv
  cases h : content.isEmpty with
  | true =>
    refine ⟨by simp [h], by simp [h], ?_⟩
    intro n hn
    simp only [h, if_true, List.mem_singleton] at hn
    subst hn
    show k < k + (splitNl content).length + 1
    omega
  | false =>
    refine ⟨by simp [h, parseContent_ne_nil], by simp [h, parseContent_nodup], ?_⟩
    intro n hn
    simp only [h, Bool.false_eq_true, if_false] at hn
    have := parseContent_id_lt content k n hn
    show n.id < k + (splitNl content).length + 1
    omega

theorem docInv_updateNode {s : DocumentState} {k : Nat} (h : docInv (s, k))
    (id : Nat) (content : JStr) : docInv (updateNode id content s, k) := by
  obtain ⟨h1, h2, h3⟩ := h
  unfold updateNode
  cases hidx : s.nodes.findIdx? (fun n => n.id = id) with
  | none => exact ⟨h1, h2, h3⟩
  | some index =>
    dsimp only
    cases hget : s.nodes[index]? with
    | none => exact ⟨h1, h2, h3⟩
    | some old =>
      dsimp only
      have hids : (s.nodes.set index
          (mkNodeFrom old.id (parseMarkdown content
            (if index > 0 then s.nodes[index - 1]? else none)))).map (fun n => n.id) =
          s.nodes.map (fun n => n.id) := by
        rw [List.map_set]
        refine set_getElem?_self ?_
        rw [List.getElem?_map, hget]
        rfl
      refine ⟨?_, by rw [hids]; exact h2, ?_⟩
      · intro hnil
        have := congrArg List.length hnil
        simp only [List.length_set, List.length_nil] at this
        exact h1 (List.eq_nil_of_length_eq_zero this)
      · intro n hn
        rcases List.mem_or_eq_of_mem_set hn with hmem | heq
        · exact h3 n hmem
        · subst heq
          have hold : old ∈ s.nodes := by
            obtain ⟨hl, he⟩ := List.getElem?_eq_some_iff.mp hget
            exact he ▸ List.getElem_mem hl
          exact h3 old hold

theorem docInv_insertNode {s : DocumentState} {k : Nat} (h : docInv (s, k))
    (afterId : Nat) : docInv (insertNode afterId k s, k + 1) := by
  obtain ⟨h1, h2, h3⟩ := h
  unfold insertNode
  cases hidx : s.nodes.findIdx? (fun n => n.id = afterId) with
  | none => exact ⟨h1, h2, fun n hn => by have := h3 n hn; omega⟩
  | some index =>
    dsimp only
    cases hget : s.nodes[index]? with
    | none => exact ⟨h1, h2, fun n hn => by have := h3 n hn; omega⟩
    | some cur =>
      dsimp only
      set newNode := createEmptyNode k
        (if cur.type = NodeType.list_item then NodeType.list_item else NodeType.paragraph)
        (if cur.type = NodeType.list_item then cur.attributes else {}) with hnew
      have hperm := listSplice_perm (index + 1) newNode s.nodes
      refine ⟨?_, ?_, ?_⟩
      · intro hnil
        dsimp only at hnil
        have hlen := congrArg List.length hnil
        rw [hperm.length_eq] at hlen
        simp at hlen
      · show ((listSplice (index + 1) newNode s.nodes).map (fun n => n.id)).Nodup
        rw [map_listSplice]
        have hp2 := listSplice_perm (index + 1) newNode.id (s.nodes.map (fun n => n.id))
        rw [hp2.nodup_iff, List.nodup_cons]
        refine ⟨?_, h2⟩
        intro hmem
        obtain ⟨m, hm, hid⟩ := List.mem_map.mp hmem
        have := h3 m hm
        have hkid : newNode.id = k := rfl
        omega
      · intro n hn
        dsimp only at hn
        rcases List.mem_cons.mp (hperm.mem_iff.mp hn) with hh | hmem
        · subst hh
          show newNode.id < k + 1
          have : newNode.id = k := rfl
          omega
        · have := h3 n hmem
          show n.id < k + 1
          omega

theorem docInv_removeNode {s : DocumentState} {k : Nat} (h : docInv (s, k))
    (id : Nat) : docInv (removeNode id s, k) := by
  obtain ⟨h1, h2, h3⟩ := h
  unfold removeNode
  cases hidx : s.nodes.findIdx? (fun n => n.id = id) with
  | none => exact ⟨h1, h2, h3⟩
  | some index =>
    dsimp only
    by_cases hlen : s.nodes.length = 1
    · rw [if_pos hlen]
      exact ⟨h1, h2, h3⟩
    · rw [if_neg hlen]
      have hsub : (s.nodes.filter (fun n => n.id ≠ id)).Sublist s.nodes :=
        List.filter_sublist _
      refine ⟨?_, ?_, ?_⟩
      · -- with distinct ids and at least two nodes, some node survives the filter
        match hs : s.nodes, h2, h3 with
        | [], _, _ => exact absurd hs h1
        | [a], _, _ => exact absurd (by rw [hs]; rfl) hlen
        | a :: b :: t, h2', h3' =>
          have hab : a.id ≠ b.id := by
            rw [hs] at h2
            simp only [List.map_cons, List.nodup_cons, List.mem_cons, List.mem_map] at h2
            intro hcontra
            exact h2.1 (Or.inl hcontra)
          intro hnil
          dsimp only at hnil
          by_cases ha : a.id = id
          · have hb : b.id ≠ id := fun hb => hab (by rw [ha, hb])
            have : b ∈ (a :: b :: t).filter (fun n => n.id ≠ id) := by
              rw [List.mem_filter]
              exact ⟨by simp, by simpa using hb⟩
            rw [hnil] at this
            exact absurd this (List.not_mem_nil b)
          · have : a ∈ (a :: b :: t).filter (fun n => n.id ≠ id) := by
              rw [List.mem_filter]
              exact ⟨by simp, by simpa using ha⟩
            rw [hnil] at this
            exact absurd this (List.not_mem_nil a)
      · exact (hsub.map (fun n => n.id)).nodup h2
      · intro n hn
        exact h3 n (hsub.mem hn)

theorem docInv_applyOp {st : DocumentState × Nat} (h : docInv st) (op : DocOp) :
    docInv (applyOp op st) := by
  obtain ⟨s, k⟩ := st
  cases op with
  | setContent content => exact docInv_setContent content
  | updateNode id content => exact docInv_updateNode h id content
  | insertNode afterId => exact docInv_insertNode h afterId
  | removeNode id => exact docInv_removeNode h id
  | setActiveNode id =>
    obtain ⟨h1, h2, h3⟩ := h
    show docInv (setActiveNode id s, k)
    unfold setActiveNode
    split <;> exact ⟨h1, h2, h3⟩
  | updateSelection sel =>
    obtain ⟨h1, h2, h3⟩ := h
    exact ⟨h1, h2, h3⟩

theorem docInv_foldl (ops : List DocOp) (st : DocumentState × Nat) (h : docInv st) :
    docInv (ops.foldl (fun st op => applyOp op st) st) := by
  induction ops generalizing st with
  | nil => exact h
  | cons op rest ih => exact ih _ (docInv_applyOp h op)

/-- C7 (confirmed). Starting from the constructor and applying any sequence
of document operations, the node sequence is never empty; `removeNode` on a
single-node document is a complete no-op; and `setContent("")` produces a
single empty paragraph node. -/
theorem C7_nodes_never_empty :
    (∀ (ops : List DocOp) (initial : Option JStr) (k0 : Nat),
        (ops.foldl (fun st op => applyOp op st) (initDocument initial k0)).1.nodes ≠ [])
    ∧ (∀ (s : DocumentState) (k id : Nat), s.nodes.length = 1 →
        applyOp (.removeNode id) (s, k) = (s, k))
    ∧ (∀ (s : DocumentState) (k : Nat),
        (applyOp (.setContent []) (s, k)).1.nodes =
          [{ id := k, type := .paragraph, content := [], rawContent := [],
             attributes := {} }]) := by
  refine ⟨?_, ?_, ?_⟩
  · intro ops initial k0
    exact (docInv_foldl ops _ (docInv_init initial k0)).1
  · intro s k id hlen
    show (removeNode id s, k) = (s, k)
    unfold removeNode
    cases hidx : s.nodes.findIdx? (fun n => n.id = id) with
    | none => rfl
    | some index => simp [hlen]
  · intro s k
    rfl

/-- C7, witness: a fresh document, then `removeNode` on its only node is a
no-op; `setContent("")` on an arbitrary state gives one empty paragraph. -/
theorem C7_witness :
    (([DocOp.removeNode 0, DocOp.insertNode 0].foldl (fun st op => applyOp op st)
        (initDocument (some (str "a")) 0)).1.nodes ≠ [])
    ∧ applyOp (.removeNode 5) (⟨[⟨3, .paragraph, str "x", str "x", {}⟩], none, none⟩, 4) =
        (⟨[⟨3, .paragraph, str "x", str "x", {}⟩], none, none⟩, 4)
    ∧ (applyOp (.setContent []) (⟨[⟨3, .paragraph, str "x", str "x", {}⟩], none, some 3⟩, 7)).1.nodes =
        [{ id := 7, type := .paragraph, content := [], rawContent := [], attributes := {} }] :=
  ⟨C7_nodes_never_empty.1 [DocOp.removeNode 0, DocOp.insertNode 0] (some (str "a")) 0,
   C7_nodes_never_empty.2.1 ⟨[⟨3, .paragraph, str "x", str "x", {}⟩], none, none⟩ 4 5 rfl,
   C7_nodes_never_empty.2.2 ⟨[⟨3, .paragraph, str "x", str "x", {}⟩], none, some 3⟩ 7⟩

/-! ## C2 and C8: the history manager -/

/-- C2 (confirmed). When `done` is non-empty, the transaction is at most
`minTimeDelta` (1000 ms) newer than `lastAddedTimestamp`, and its type
matches the top entry, `addTransaction` merges: only the top entry's
`after` is replaced, nothing is pushed, and `lastAddedAt` is untouched.
Consequently three `insert_text` transactions arriving within 1000 ms of
the first appended one collapse into one `done` entry, and a single
`undo()` returns the `before` snapshot of the first of the three. -/
theorem C2_addTransaction_merge :
    (∀ (h : History σ) (tr top : HTransaction σ) (rest : List (HTransaction σ)),
        h.done = top :: rest →
        tr.timestamp - h.lastAddedAt ≤ 1000 →
        top.type = tr.type →
        addTransaction tr h =
          { done := { top with after := tr.after } :: rest, undone := [],
            lastAddedAt := h.lastAddedAt })
    ∧ (∀ (h0 : History σ) (t1 t2 t3 : HTransaction σ),
        h0.done = [] →
        t1.type = .insert_text → t2.type = .insert_text → t3.type = .insert_text →
        t2.timestamp - t1.timestamp ≤ 1000 →
        t3.timestamp - t1.timestamp ≤ 1000 →
        (addTransaction t3 (addTransaction t2 (addTransaction t1 h0))).done.length = 1 ∧
        (undo (addTransaction t3 (addTransaction t2 (addTransaction t1 h0)))).1 =
          some t1.before) := by
  have merge : ∀ (h : History σ) (tr top : HTransaction σ) (rest : List (HTransaction σ)),
      h.done = top :: rest →
      tr.timestamp - h.lastAddedAt ≤ 1000 →
      top.type = tr.type →
      addTransaction tr h =
        { done := { top with after := tr.after } :: rest, undone := [],
          lastAddedAt := h.lastAddedAt } := by
    intro h tr top rest hdone htime htype
    unfold addTransaction
    rw [hdone]
    dsimp only
    rw [if_neg]
    intro hcon
    rcases (Bool.or_eq_true _ _).mp hcon with hc | hc
    · rw [decide_eq_true_eq, show minTimeDelta = (1000 : Int) from rfl] at hc
      omega
    · rw [decide_eq_true_eq] at hc
      exact hc htype
  refine ⟨merge, ?_⟩
  intro h0 t1 t2 t3 hdone hty1 hty2 hty3 ht2 ht3
  have h1 : addTransaction t1 h0 =
      { done := [t1], undone := [], lastAddedAt := t1.timestamp } := by
    unfold addTransaction
    rw [hdone]
  have h2 : addTransaction t2 (addTransaction t1 h0) =
      { done := [{ t1 with after := t2.after }], undone := [],
        lastAddedAt := t1.timestamp } := by
    rw [h1, merge _ t2 t1 [] rfl (by dsimp only; omega) (by rw [hty1, hty2])]
  have h3 : addTransaction t3 (addTransaction t2 (addTransaction t1 h0)) =
      { done := [{ t1 with after := t3.after }], undone := [],
        lastAddedAt := t1.timestamp } := by
    rw [h2, merge _ t3 { t1 with after := t2.after } [] rfl (by dsimp only; omega)
          (by show t1.type = t3.type; rw [hty1, hty3])]
  rw [h3]
  exact ⟨rfl, rfl⟩

/-- A concrete snapshot pair used by the history witnesses. -/
def hSnap (n : Nat) : DocumentState := ⟨[⟨n, .paragraph, str "s", str "s", {}⟩], none, none⟩

/-- C2, witness: the merge equation and the three-transaction collapse at
concrete transactions 150 ms apart. -/
theorem C2_addTransaction_merge_witness :
    (addTransaction (σ := DocumentState)
        ⟨hSnap 2, hSnap 3, 1100, .insert_text⟩
        ⟨[⟨hSnap 0, hSnap 1, 1000, .insert_text⟩], [], 1000⟩ =
      { done := [⟨hSnap 0, hSnap 3, 1000, .insert_text⟩], undone := [], lastAddedAt := 1000 })
    ∧ ((addTransaction (σ := DocumentState) ⟨hSnap 4, hSnap 5, 300, .insert_text⟩
          (addTransaction ⟨hSnap 2, hSnap 3, 200, .insert_text⟩
            (addTransaction ⟨hSnap 0, hSnap 1, 100, .insert_text⟩
              ⟨[], [], 0⟩))).done.length = 1 ∧
       (undo (addTransaction (σ := DocumentState) ⟨hSnap 4, hSnap 5, 300, .insert_text⟩
          (addTransaction ⟨hSnap 2, hSnap 3, 200, .insert_text⟩
            (addTransaction ⟨hSnap 0, hSnap 1, 100, .insert_text⟩
              ⟨[], [], 0⟩)))).1 = some (hSnap 0)) :=
  ⟨C2_addTransaction_merge.1 ⟨[⟨hSnap 0, hSnap 1, 1000, .insert_text⟩], [], 1000⟩
      ⟨hSnap 2, hSnap 3, 1100, .insert_text⟩ ⟨hSnap 0, hSnap 1, 1000, .insert_text⟩ []
      rfl (by decide) rfl,
   C2_addTransaction_merge.2 ⟨[], [], 0⟩
      ⟨hSnap 0, hSnap 1, 100, .insert_text⟩ ⟨hSnap 2, hSnap 3, 200, .insert_text⟩
      ⟨hSnap 4, hSnap 5, 300, .insert_text⟩ rfl rfl rfl rfl (by decide) (by decide)⟩

/-- C8 (confirmed). `undo()` on an empty `done` stack returns `null` and
changes nothing; otherwise it pops the most recent transaction onto
`undone` and returns its `before` snapshot; `redo()` mirrors this with the
`after` snapshot. Both are total functions — no exception path exists. -/
theorem C8_undo_redo :
    ∀ (h : History σ),
      (h.done = [] → undo h = (none, h))
      ∧ (∀ tr rest, h.done = tr :: rest →
          undo h = (some tr.before, { h with done := rest, undone := tr :: h.undone }))
      ∧ (h.undone = [] → redo h = (none, h))
      ∧ (∀ tr rest, h.undone = tr :: rest →
          redo h = (some tr.after, { h with done := tr :: h.done, undone := rest })) := by
  intro h
  refine ⟨?_, ?_, ?_, ?_⟩
  · intro hdone
    unfold undo
    rw [hdone]
  · intro tr rest hdone
    unfold undo
    rw [hdone]
  · intro hundone
    unfold redo
    rw [hundone]
  · intro tr rest hundone
    unfold redo
    rw [hundone]

/-- C8, witness: applied to an empty history and to a one-entry history. -/
theorem C8_undo_redo_witness :
    (undo (σ := DocumentState) ⟨[], [], 0⟩ = (none, ⟨[], [], 0⟩))
    ∧ (undo (σ := DocumentState) ⟨[⟨hSnap 0, hSnap 1, 5, .delete_text⟩], [], 5⟩ =
        (some (hSnap 0), ⟨[], [⟨hSnap 0, hSnap 1, 5, .delete_text⟩], 5⟩))
    ∧ (redo (σ := DocumentState) ⟨[], [], 0⟩ = (none, ⟨[], [], 0⟩))
    ∧ (redo (σ := DocumentState) ⟨[], [⟨hSnap 0, hSnap 1, 5, .delete_text⟩], 5⟩ =
        (some (hSnap 1), ⟨[⟨hSnap 0, hSnap 1, 5, .delete_text⟩], [], 5⟩)) :=
  ⟨(C8_undo_redo ⟨[], [], 0⟩).1 rfl,
   (C8_undo_redo ⟨[⟨hSnap 0, hSnap 1, 5, .delete_text⟩], [], 5⟩).2.1
      ⟨hSnap 0, hSnap 1, 5, .delete_text⟩ [] rfl,
   (C8_undo_redo ⟨[], [], 0⟩).2.2.1 rfl,
   (C8_undo_redo ⟨[], [⟨hSnap 0, hSnap 1, 5, .delete_text⟩], 5⟩).2.2.2
      ⟨hSnap 0, hSnap 1, 5, .delete_text⟩ [] rfl⟩

/-! ## C5 and C10: `normalizeRange` -/

theorem clampPosition_spec {pos : Position} {nodes : List Node} (hne : nodes ≠ []) :
    ∃ node p, clampPosition pos nodes = some p ∧
      nodes[p.line.toNat]? = some node ∧
      0 ≤ p.line ∧ p.line ≤ (nodes.length : Int) - 1 ∧
      0 ≤ p.column ∧ p.column ≤ (node.rawContent.length : Int) := by
  have hlen : 1 ≤ nodes.length := List.length_pos.mpr hne
  have h0 : (0 : Int) ≤ max 0 (min pos.line ((nodes.length : Int) - 1)) := le_max_left 0 _
  have h1 : max 0 (min pos.line ((nodes.length : Int) - 1)) ≤ (nodes.length : Int) - 1 :=
    max_le (by omega) (min_le_right _ _)
  have htn : (max 0 (min pos.line ((nodes.length : Int) - 1))).toNat < nodes.length := by
    omega
  refine ⟨nodes[(max 0 (min pos.line ((nodes.length : Int) - 1))).toNat],
    ⟨max 0 (min pos.line ((nodes.length : Int) - 1)),
     max 0 (min pos.column
       ((nodes[(max 0 (min pos.line ((nodes.length : Int) - 1))).toNat].rawContent.length : Int)))⟩,
    ?_, ?_, h0, h1, le_max_left 0 _, ?_⟩
  · unfold clampPosition
    dsimp only
    rw [List.getElem?_eq_getElem htn]
  · exact List.getElem?_eq_getElem htn
  · exact max_le (by positivity) (min_le_right _ _)

/-- C5 (amended). `normalizeRange` swaps `start` and `end` whenever `start`
sorts after `end` — but then returns IMMEDIATELY, without clamping (the
source `return`s inside the swap branch). Only when no swap is needed are
both positions clamped into bounds: line into `[0, nodeCount-1]` and column
into `[0, rawContent length]` of the clamped line. -/
theorem C5_normalizeRange_behaviour :
    ∀ (r : Range) (nodes : List Node),
      (sortsAfter r.start r.«end» = true →
        normalizeRange r nodes = some ⟨r.«end», r.start⟩)
      ∧ (sortsAfter r.start r.«end» = false → nodes ≠ [] →
        ∃ s e ns ne2, normalizeRange r nodes = some ⟨s, e⟩ ∧
          nodes[s.line.toNat]? = some ns ∧ nodes[e.line.toNat]? = some ne2 ∧
          0 ≤ s.line ∧ s.line ≤ (nodes.length : Int) - 1 ∧
          0 ≤ e.line ∧ e.line ≤ (nodes.length : Int) - 1 ∧
          0 ≤ s.column ∧ s.column ≤ (ns.rawContent.length : Int) ∧
          0 ≤ e.column ∧ e.column ≤ (ne2.rawContent.length : Int)) := by
  intro r nodes
  constructor
  · intro hs
    unfold normalizeRange
    rw [if_pos hs]
  · intro hs hne
    obtain ⟨ns, s, hcs, hgs, hs0, hs1, hs2, hs3⟩ := @clampPosition_spec r.start nodes hne
    obtain ⟨ne2, e, hce, hge, he0, he1, he2, he3⟩ := @clampPosition_spec r.«end» nodes hne
    refine ⟨s, e, ns, ne2, ?_, hgs, hge, hs0, hs1, he0, he1, hs2, hs3, he2, he3⟩
    unfold normalizeRange
    rw [if_neg (by simp [hs]), hcs, hce]

/-- C5, counterexample to the claim as stated: on a one-node document, the
swapped result keeps the out-of-range line 5 — the clamping promised "also
when a swap occurred" does not happen. -/
theorem C5_swap_unclamped_counterexample :
    normalizeRange ⟨⟨5, 7⟩, ⟨0, 0⟩⟩ [⟨0, .paragraph, str "ab", str "ab", {}⟩] =
      some ⟨⟨0, 0⟩, ⟨5, 7⟩⟩ ∧
    ¬((5 : Int) ≤ (([⟨0, .paragraph, str "ab", str "ab", {}⟩] : List Node).length : Int) - 1) := by
  constructor
  · rfl
  · decide

/-- C5, witness: the behaviour theorem applied to a swapped range and to an
in-order range on a one-node document. -/
theorem C5_normalizeRange_witness :
    (normalizeRange ⟨⟨5, 7⟩, ⟨0, 0⟩⟩ [⟨0, .paragraph, str "ab", str "ab", {}⟩] =
      some ⟨⟨0, 0⟩, ⟨5, 7⟩⟩)
    ∧ (∃ s e ns ne2,
        normalizeRange ⟨⟨0, 1⟩, ⟨9, 9⟩⟩ [⟨0, .paragraph, str "ab", str "ab", {}⟩] =
          some ⟨s, e⟩ ∧
        ([⟨0, .paragraph, str "ab", str "ab", {}⟩] : List Node)[s.line.toNat]? = some ns ∧
        ([⟨0, .paragraph, str "ab", str "ab", {}⟩] : List Node)[e.line.toNat]? = some ne2 ∧
        0 ≤ s.line ∧ s.line ≤ (([⟨0, .paragraph, str "ab", str "ab", {}⟩] : List Node).length : Int) - 1 ∧
        0 ≤ e.line ∧ e.line ≤ (([⟨0, .paragraph, str "ab", str "ab", {}⟩] : List Node).length : Int) - 1 ∧
        0 ≤ s.column ∧ s.column ≤ (ns.rawContent.length : Int) ∧
        0 ≤ e.column ∧ e.column ≤ (ne2.rawContent.length : Int)) :=
  ⟨(C5_normalizeRange_behaviour ⟨⟨5, 7⟩, ⟨0, 0⟩⟩ [⟨0, .paragraph, str "ab", str "ab", {}⟩]).1
      (by decide),
   (C5_normalizeRange_behaviour ⟨⟨0, 1⟩, ⟨9, 9⟩⟩ [⟨0, .paragraph, str "ab", str "ab", {}⟩]).2
      (by decide) (by decide)⟩

/-- C10 (confirmed). For a non-empty node list, `normalizeRange` is total:
in the swap branch nothing is indexed at all, and in the clamp branch the
clamped line always lies inside the node list, so the unguarded
`nodes[line].rawContent` read in `clampPosition` can never hit `undefined`. -/
theorem C10_normalizeRange_total :
    ∀ (r : Range) (nodes : List Node), nodes ≠ [] →
      (normalizeRange r nodes).isSome = true := by
  intro r nodes hne
  unfold normalizeRange
  cases hs : sortsAfter r.start r.«end» with
  | true => simp
  | false =>
    obtain ⟨ns, s, hcs, -⟩ := @clampPosition_spec r.start nodes hne
    obtain ⟨ne2, e, hce, -⟩ := @clampPosition_spec r.«end» nodes hne
    simp [hcs, hce]

/-- C10, witness: totality applied to a wildly out-of-range range on a
one-node document. -/
theorem C10_normalizeRange_total_witness :
    (normalizeRange ⟨⟨-100, -7⟩, ⟨1000, 999⟩⟩
        [⟨0, .paragraph, str "ab", str "ab", {}⟩]).isSome = true :=
  C10_normalizeRange_total ⟨⟨-100, -7⟩, ⟨1000, 999⟩⟩
    [⟨0, .paragraph, str "ab", str "ab", {}⟩] (by decide)

/-! ## C6 and C9: `handleSelectAll` -/

theorem createLineSelection_inRange {l : Int} {nodes : List Node}
    (h0 : 0 ≤ l) (h1 : l < (nodes.length : Int)) :
    (createLineSelection l nodes).type = .line := by
  unfold createLineSelection
  rw [if_neg (by simp only [Bool.or_eq_true, decide_eq_true_eq]; omega)]
  have htn : l.toNat < nodes.length := by omega
  rw [List.getElem?_eq_getElem htn]

theorem createDocumentSelection_of_ne_nil {nodes : List Node} (h : nodes ≠ []) :
    (createDocumentSelection nodes).type = .document := by
  unfold createDocumentSelection
  cases hl : nodes.getLast? with
  | none => exact absurd (List.getLast?_eq_none_iff.mp hl) h
  | some last => rfl


/-- Source `handleSelectAll` escalates exactly in one shape of manager state; in
every call it lands in one of the two literal branches. -/
theorem handleSelectAll_branches (nodes : List Node) (cl now : Int) (m : SelMgr) :
    handleSelectAll nodes cl now m =
      (createDocumentSelection nodes,
       { m with lastSelectionType := some .document, lastSelectionTime := some now })
    ∨ handleSelectAll nodes cl now m =
      (createLineSelection cl nodes,
       { m with lastSelectionType := some .line, lastSelectionTime := some now }) := by
  obtain ⟨mty, mti⟩ := m
  cases mti <;>
    · unfold handleSelectAll
      dsimp only
      split
      · exact Or.inl rfl
      · exact Or.inr rfl

/-- The escalation branch: previous type `line`, non-zero recorded time,
strictly less than 500 ms old. -/
theorem handleSelectAll_escalate {nodes : List Node} {cl now t : Int} {m : SelMgr}
    (hty : m.lastSelectionType = some .line) (hti : m.lastSelectionTime = some t)
    (ht : t ≠ 0) (hlt : now - t < 500) :
    handleSelectAll nodes cl now m =
      (createDocumentSelection nodes,
       { m with lastSelectionType := some .document, lastSelectionTime := some now }) := by
  obtain ⟨mty, mti⟩ := m
  simp only at hty hti
  subst hty hti
  unfold handleSelectAll
  dsimp only
  rw [if_pos (by simp [ht]; omega)]

/-- The non-escalation branch when the recorded time is 500 ms old or more. -/
theorem handleSelectAll_late {nodes : List Node} {cl now t : Int} {m : SelMgr}
    (hti : m.lastSelectionTime = some t) (hge : ¬ now - t < 500) :
    handleSelectAll nodes cl now m =
      (createLineSelection cl nodes,
       { m with lastSelectionType := some .line, lastSelectionTime := some now }) := by
  obtain ⟨mty, mti⟩ := m
  simp only at hti
  subst hti
  unfold handleSelectAll
  dsimp only
  rw [if_neg (by simp [hge])]

/-- The non-escalation branch when the previous recorded type is not `line`. -/
theorem handleSelectAll_notLine {nodes : List Node} {cl now : Int} {m : SelMgr}
    (hty : m.lastSelectionType ≠ some .line) :
    handleSelectAll nodes cl now m =
      (createLineSelection cl nodes,
       { m with lastSelectionType := some .line, lastSelectionTime := some now }) := by
  obtain ⟨mty, mti⟩ := m
  simp only at hty
  cases mti <;>
    · unfold handleSelectAll
      dsimp only
      rw [if_neg (by simp [hty])]

/-- C6 (amended). Two successive `handleSelectAll` calls on the same valid
`currentLine`: when the first call recorded selection type `line` AND its
recorded time `t1` is non-zero (a recorded time of 0 is falsy in the
source's `this.lastSelectionTime && ...` check and blocks escalation — the
extra `t1 ≠ 0` hypothesis the original claim lacks), a second call strictly
less than 500 ms later returns a `document` selection, a second call 500 ms
or more later returns a `line` selection again, and both calls record their
own timestamp unconditionally. -/
theorem C6_double_selectAll :
    ∀ (nodes : List Node) (currentLine t1 t2 : Int) (m0 : SelMgr),
      0 ≤ currentLine → currentLine < (nodes.length : Int) → t1 ≠ 0 →
      (handleSelectAll nodes currentLine t1 m0).2.lastSelectionType = some .line →
      (handleSelectAll nodes currentLine t1 m0).1.type = .line
      ∧ (handleSelectAll nodes currentLine t1 m0).2.lastSelectionTime = some t1
      ∧ (t2 - t1 < 500 →
          (handleSelectAll nodes currentLine t2
            (handleSelectAll nodes currentLine t1 m0).2).1.type = .document
          ∧ (handleSelectAll nodes currentLine t2
              (handleSelectAll nodes currentLine t1 m0).2).2.lastSelectionTime = some t2)
      ∧ (500 ≤ t2 - t1 →
          (handleSelectAll nodes currentLine t2
            (handleSelectAll nodes currentLine t1 m0).2).1.type = .line
          ∧ (handleSelectAll nodes currentLine t2
              (handleSelectAll nodes currentLine t1 m0).2).2.lastSelectionTime = some t2) := by
  intro nodes currentLine t1 t2 m0 h0 h1 ht1 hrec
  have hnne : nodes ≠ [] := by
    intro hnil
    rw [hnil] at h1
    simp at h1
    omega
  rcases handleSelectAll_branches nodes currentLine t1 m0 with hm1 | hm1
  · rw [hm1] at hrec
    exact absurd hrec (by simp)
  · rw [hm1]
    refine ⟨createLineSelection_inRange h0 h1, rfl, ?_, ?_⟩
    · intro hlt
      rw [handleSelectAll_escalate (t := t1) rfl rfl ht1 hlt]
      exact ⟨createDocumentSelection_of_ne_nil hnne, rfl⟩
    · intro hge
      rw [handleSelectAll_late (t := t1) rfl (by omega)]
      exact ⟨createLineSelection_inRange h0 h1, rfl⟩

/-- C6, counterexample to the claim as stated: with the first call at
`Date.now() = 0` (a falsy timestamp), the second call 100 ms later does NOT
escalate — it returns a `line` selection although it arrived strictly
within 500 ms of a recorded `line` selection. -/
theorem C6_zero_time_counterexample :
    ((handleSelectAll [⟨0, .paragraph, str "a", str "a", {}⟩] 0 0 ⟨none, none⟩).2.lastSelectionType
        = some .line)
    ∧ ((100 : Int) - 0 < 500)
    ∧ ((handleSelectAll [⟨0, .paragraph, str "a", str "a", {}⟩] 0 100
          (handleSelectAll [⟨0, .paragraph, str "a", str "a", {}⟩] 0 0 ⟨none, none⟩).2).1.type
        = .line)
    ∧ SelectionType.line ≠ SelectionType.document := by
  refine ⟨rfl, by decide, rfl, by decide⟩

/-- C6, witness: the double-press theorem applied on a one-node document
with the first call at time 1000 and the second at 1100 (escalates) /
at 1600 (does not). -/
theorem C6_double_selectAll_witness :
    ((handleSelectAll [⟨0, .paragraph, str "a", str "a", {}⟩] 0 1000 ⟨none, none⟩).1.type = .line)
    ∧ ((handleSelectAll [⟨0, .paragraph, str "a", str "a", {}⟩] 0 1100
          (handleSelectAll [⟨0, .paragraph, str "a", str "a", {}⟩] 0 1000 ⟨none, none⟩).2).1.type
        = .document)
    ∧ ((handleSelectAll [⟨0, .paragraph, str "a", str "a", {}⟩] 0 1600
          (handleSelectAll [⟨0, .paragraph, str "a", str "a", {}⟩] 0 1000 ⟨none, none⟩).2).1.type
        = .line) :=
  ⟨(C6_double_selectAll [⟨0, .paragraph, str "a", str "a", {}⟩] 0 1000 1100 ⟨none, none⟩
      (by decide) (by decide) (by decide) rfl).1,
   ((C6_double_selectAll [⟨0, .paragraph, str "a", str "a", {}⟩] 0 1000 1100 ⟨none, none⟩
      (by decide) (by decide) (by decide) rfl).2.2.1 (by decide)).1,
   ((C6_double_selectAll [⟨0, .paragraph, str "a", str "a", {}⟩] 0 1000 1600 ⟨none, none⟩
      (by decide) (by decide) (by decide) rfl).2.2.2 (by decide)).1⟩

theorem createLineSelection_outOfRange {l : Int} {nodes : List Node}
    (h : l < 0 ∨ (nodes.length : Int) ≤ l) :
    createLineSelection l nodes = createEmptySelection := by
  unfold createLineSelection
  rw [if_pos (by simp only [Bool.or_eq_true, decide_eq_true_eq]; omega)]

/-- C9 (amended). A non-escalating `handleSelectAll` call with an
out-of-range `currentLine` returns the empty collapsed `none` selection,
yet still records selection type `line` and the call time; provided that
recorded time is non-zero and the node list is non-empty, a second call
strictly within 500 ms escalates to a full `document` selection even though
the first call selected nothing. (The original claim lacks the non-zero
time, non-escalating-first-call, and non-empty-list provisos.) -/
theorem C9_out_of_range_selectAll :
    ∀ (nodes : List Node) (currentLine t1 t2 : Int) (m0 : SelMgr),
      (currentLine < 0 ∨ (nodes.length : Int) ≤ currentLine) →
      m0.lastSelectionType ≠ some .line →
      t1 ≠ 0 → t2 - t1 < 500 → nodes ≠ [] →
      (handleSelectAll nodes currentLine t1 m0).1 = createEmptySelection
      ∧ (handleSelectAll nodes currentLine t1 m0).1.type = .none
      ∧ (handleSelectAll nodes currentLine t1 m0).1.isCollapsed = true
      ∧ (handleSelectAll nodes currentLine t1 m0).2.lastSelectionType = some .line
      ∧ (handleSelectAll nodes currentLine t1 m0).2.lastSelectionTime = some t1
      ∧ (handleSelectAll nodes currentLine t2
          (handleSelectAll nodes currentLine t1 m0).2).1.type = .document := by
  intro nodes currentLine t1 t2 m0 hout hty ht1 hlt hnne
  have hm1 : handleSelectAll nodes currentLine t1 m0 =
      (createLineSelection currentLine nodes,
       { m0 with lastSelectionType := some .line, lastSelectionTime := some t1 }) :=
    handleSelectAll_notLine hty
  rw [hm1, createLineSelection_outOfRange hout]
  refine ⟨rfl, rfl, rfl, rfl, rfl, ?_⟩
  rw [handleSelectAll_escalate (t := t1) rfl rfl ht1 hlt]
  exact createDocumentSelection_of_ne_nil hnne

/-- C9, counterexample to the claim as stated: with the first (out-of-range)
call at `Date.now() = 0`, the second call 100 ms later does NOT escalate —
it again returns the empty `none` selection, not a `document` one. -/
theorem C9_zero_time_counterexample :
    ((handleSelectAll [⟨0, .paragraph, str "a", str "a", {}⟩] 5 0 ⟨none, none⟩).1.type
        = .none)
    ∧ ((handleSelectAll [⟨0, .paragraph, str "a", str "a", {}⟩] 5 0
          ⟨none, none⟩).2.lastSelectionType = some .line)
    ∧ ((100 : Int) - 0 < 500)
    ∧ ((handleSelectAll [⟨0, .paragraph, str "a", str "a", {}⟩] 5 100
          (handleSelectAll [⟨0, .paragraph, str "a", str "a", {}⟩] 5 0 ⟨none, none⟩).2).1.type
        = .none)
    ∧ SelectionType.none ≠ SelectionType.document := by
  refine ⟨rfl, rfl, by decide, rfl, by decide⟩

/-- C9, witness: the theorem applied on a one-node document with
`currentLine = 5`, first call at 1000, second at 1100. -/
theorem C9_out_of_range_witness :
    ((handleSelectAll [⟨0, .paragraph, str "a", str "a", {}⟩] 5 1000 ⟨none, none⟩).1
        = createEmptySelection)
    ∧ ((handleSelectAll [⟨0, .paragraph, str "a", str "a", {}⟩] 5 1100
          (handleSelectAll [⟨0, .paragraph, str "a", str "a", {}⟩] 5 1000 ⟨none, none⟩).2).1.type
        = .document) :=
  ⟨(C9_out_of_range_selectAll [⟨0, .paragraph, str "a", str "a", {}⟩] 5 1000 1100 ⟨none, none⟩
      (by decide) (by decide) (by decide) (by decide) (by decide)).1,
   (C9_out_of_range_selectAll [⟨0, .paragraph, str "a", str "a", {}⟩] 5 1000 1100 ⟨none, none⟩
      (by decide) (by decide) (by decide) (by decide) (by decide)).2.2.2.2.2⟩
